import Mathlib

/-!
A verification development for the IRC bot in `bot.py`: a shallow
embedding of its policy and state engine (hostmask parsing, the
configuration codec, the configuration service with its per-channel
state tracker, the permission engine, and the event handlers that drive
auto-opping), together with theorems settling the specification claims.

Embedding conventions:
* Python dicts are embedded as association lists (`List (String × α)`)
  with insertion-order semantics: `dictGet` (`dict.get`), `dictSet`
  (`d[k] = v`, replacing in place or appending), `dictDel` (`del d[k]`,
  `none` marking the `KeyError`).
* Python sets of objects that define no custom equality (the channel set
  of a `Configuration`, the operator set of a `Channel`) are embedded as
  lists: `set.add` of a freshly allocated object is an append, `set.add`
  of a possibly shared registry object deduplicates (`insertOp`); a
  `set` of strings is a list with decidable membership.
* `str.split(sep)` with a one-character separator is `splitChar` over
  the character list of the string.
* `fnmatch.fnmatch` is `globMatchFuel` (wildcards `*` and `?` and
  literal characters, case-sensitive as on POSIX `normcase`), run with
  enough fuel to be total.
* Console `print` logging is not modelled; outbound IRC commands (mode
  change, join, notice) are modelled by `Command`.  Handlers that can
  raise a Python exception (`AttributeError` from calling a method on
  the `None` returned by a failed `Hostmask.parse`, `KeyError` from
  `del`, a failed `assert`) return an `Option`, `none` marking the
  exception.
-/

namespace IrcBot

/-- `str.split(sep)` for a single-character separator, on character
lists.  Mirrors Python: `"".split(s) = [""]`, separators at the ends
produce empty fields. -/
def splitChar (sep : Char) : List Char → List (List Char)
  | [] => [[]]
  | c :: rest =>
    if c = sep then [] :: splitChar sep rest
    else
      match splitChar sep rest with
      | [] => [[c]]
      | g :: gs => (c :: g) :: gs

/-- Split a string on a single-character separator, returning strings. -/
def pySplit (sep : Char) (s : String) : List String :=
  (splitChar sep s.data).map String.mk

/-- `fnmatch.fnmatch(name, pat)` restricted to the features the bot's
hostmask patterns use (`*`, `?`, literal characters; no bracket
classes), with explicit fuel so that it is structurally recursive.
Arguments: fuel, pattern characters, name characters. -/
def globMatchFuel : Nat → List Char → List Char → Bool
  | 0, _, _ => false
  | _ + 1, [], [] => true
  | _ + 1, [], _ :: _ => false
  | fuel + 1, p :: ps, [] =>
    if p = '*' then globMatchFuel fuel ps [] else false
  | fuel + 1, p :: ps, c :: cs =>
    if p = '*' then globMatchFuel fuel ps (c :: cs) || globMatchFuel fuel (p :: ps) cs
    else if p = '?' then globMatchFuel fuel ps cs
    else decide (p = c) && globMatchFuel fuel ps cs

/-- `fnmatch.fnmatch(name, pattern)`: each recursive step of the glob
matcher shrinks `pattern.length + name.length`, so this fuel always
suffices. -/
def fnmatch (name pattern : String) : Bool :=
  globMatchFuel (pattern.data.length + name.data.length + 1) pattern.data name.data

/-- Association-list embedding of `dict.get(k)`. -/
def dictGet {α : Type} : List (String × α) → String → Option α
  | [], _ => none
  | (k2, v) :: rest, k => if k2 = k then some v else dictGet rest k

/-- Association-list embedding of `d[k] = v`: replaces the value at an
existing key in place, otherwise appends (Python dicts preserve
insertion order). -/
def dictSet {α : Type} : List (String × α) → String → α → List (String × α)
  | [], k, v => [(k, v)]
  | (k2, v2) :: rest, k, v =>
    if k2 = k then (k, v) :: rest else (k2, v2) :: dictSet rest k v

/-- Association-list embedding of `del d[k]`; `none` marks the
`KeyError` raised when the key is absent. -/
def dictDel {α : Type} : List (String × α) → String → Option (List (String × α))
  | [], _ => none
  | (k2, v2) :: rest, k =>
    if k2 = k then some rest else (dictDel rest k).map (fun r => (k2, v2) :: r)

/-- `ChannelState.__init__`: created with `opped = False`. -/
structure ChannelState where
  name : String
  opped : Bool
  deriving DecidableEq

/-- `Hostmask`: the parsed `nick!user@host` triple. -/
structure Hostmask where
  nickname : String
  username : String
  hostname : String
  deriving DecidableEq

/-- `Hostmask.__str__` / `getHostmask`: render as `nick!user@host`. -/
def Hostmask.render (h : Hostmask) : String :=
  h.nickname ++ "!" ++ h.username ++ "@" ++ h.hostname

/-- `Hostmask.parse`: split on `'@'`, require exactly two parts; split
the front on `'!'`, require exactly two parts.  No other validation is
performed. -/
def Hostmask.parse (s : String) : Option Hostmask :=
  match splitChar '@' s.data with
  | [front, host] =>
    match splitChar '!' front with
    | [nick, user] => some ⟨String.mk nick, String.mk user, String.mk host⟩
    | _ => none
  | _ => none

/-- `User`: a configured trusted user. -/
structure User where
  name : String
  mask : String
  userClass : String
  deriving DecidableEq

/-- `User.match`: `fnmatch(other, self.mask)`. -/
def User.matchMask (u : User) (other : String) : Bool :=
  fnmatch other u.mask

/-- `Server`: one entry of the cyclic server list. -/
structure Server where
  hostname : String
  port : Int
  ssl : Bool
  deriving DecidableEq

/-- `Channel`: a configured channel with its operator set.  The Python
operator set holds shared `User` registry objects; it is embedded as a
deduplicated list. -/
structure Channel where
  name : String
  operators : List User
  deriving DecidableEq

/-- `Configuration`: the aggregate policy object.  `users` embeds the
`UserRegistry`'s name-keyed dict; `channels` embeds the Python `set` of
`Channel` objects (identity-based, hence a plain list in insertion
order). -/
structure Configuration where
  nickname : String
  username : String
  realname : String
  servers : List Server
  channels : List Channel
  users : List (String × User)
  valid : Bool
  errorMessages : List String
  warningMessages : List String
  deriving DecidableEq

/-- `Configuration.__init__`. -/
def Configuration.init : Configuration :=
  { nickname := "", username := "", realname := "", servers := [],
    channels := [], users := [], valid := true, errorMessages := [],
    warningMessages := [] }

/-- `Configuration.invalidate`. -/
def Configuration.invalidate (c : Configuration) : Configuration :=
  { c with valid := false }

/-- `Configuration.appendErrorMessage`. -/
def Configuration.appendErrorMessage (c : Configuration) (m : String) : Configuration :=
  { c with errorMessages := c.errorMessages ++ [m] }

/-- `Configuration.appendWarningMessage`. -/
def Configuration.appendWarningMessage (c : Configuration) (m : String) : Configuration :=
  { c with warningMessages := c.warningMessages ++ [m] }

/-- `Configuration.addUser` / `UserRegistry.registerUser`: keyed by the
user's name, a later entry with the same name replaces the earlier. -/
def Configuration.addUser (c : Configuration) (u : User) : Configuration :=
  { c with users := dictSet c.users u.name u }

/-- `Configuration.findUser` / `UserRegistry.find`. -/
def Configuration.findUser (c : Configuration) (username : String) : Option User :=
  dictGet c.users username

/-- `Configuration.hasUser` / `UserRegistry.contains`. -/
def Configuration.hasUser (c : Configuration) (username : String) : Bool :=
  (dictGet c.users username).isSome

/-- `Configuration.getUsers` / `UserRegistry.getUsers`: dict values in
insertion order. -/
def Configuration.getUsers (c : Configuration) : List User :=
  c.users.map (fun p => p.2)

/-- `Configuration.addServer`: appends to the server deque. -/
def Configuration.addServer (c : Configuration) (s : Server) : Configuration :=
  { c with servers := c.servers ++ [s] }

/-- `Configuration.addChannel`: `set.add` of a freshly allocated
`Channel` object, hence an append. -/
def Configuration.addChannel (c : Configuration) (ch : Channel) : Configuration :=
  { c with channels := c.channels ++ [ch] }

/-- `Configuration.getChannel`: linear scan for the first channel with
the given name. -/
def Configuration.getChannel (c : Configuration) (channel : String) : Option Channel :=
  c.channels.find? (fun ch => ch.name == channel)

/-- `Configuration.findMatches` / `UserRegistry.findMatches`: every
registered user whose mask matches the rendered hostmask. -/
def Configuration.findMatches (c : Configuration) (hostmask : Hostmask) : List User :=
  (c.users.map (fun p => p.2)).filter (fun u => u.matchMask hostmask.render)

/-- `ConfigurationDecoder.required_keys`, in declared order. -/
def requiredKeys : List String := ["bot", "servers", "users", "channels"]

/-- `ConfigurationDecoder.valid_user_classes`. -/
def validUserClasses : List String := ["admin", "user"]

/-- `ConfigurationDecoder.invalid_user_masks`: the universally matching
patterns. -/
def invalidUserMasks : List String := ["*", "*@*", "*!*", "*!*@*"]

/-- The `bot` section of a policy document: each field may be absent. -/
structure BotSection where
  nickname : Option String
  username : Option String
  realname : Option String
  deriving DecidableEq

/-- A `servers` entry of a policy document. -/
structure ServerEntry where
  hostname : Option String
  port : Option Int
  ssl : Option Bool
  deriving DecidableEq

/-- A `users` entry of a policy document (`userClass` embeds the
`"class"` key). -/
structure UserEntry where
  name : Option String
  mask : Option String
  userClass : Option String
  deriving DecidableEq

/-- A `channels` entry of a policy document. -/
structure ChannelEntry where
  name : Option String
  operators : Option (List String)
  deriving DecidableEq

/-- A decoded JSON policy document: each of the four top-level sections
may be absent. -/
structure Doc where
  bot : Option BotSection
  servers : Option (List ServerEntry)
  users : Option (List UserEntry)
  channels : Option (List ChannelEntry)
  deriving DecidableEq

/-- `key in obj` for the four top-level sections. -/
def docHasKey (d : Doc) (key : String) : Bool :=
  if key = "bot" then d.bot.isSome
  else if key = "servers" then d.servers.isSome
  else if key = "users" then d.users.isSome
  else if key = "channels" then d.channels.isSome
  else false

/-- The error message appended for a missing top-level section. -/
def lacksKeyMsg (key : String) : String :=
  "Configuration file lacks '" ++ key ++ "' key."

/-- One iteration of the decoder's sanity check over `required_keys`. -/
def sanityStep (d : Doc) (c : Configuration) (key : String) : Configuration :=
  if docHasKey d key then c
  else (c.appendErrorMessage (lacksKeyMsg key)).invalidate

/-- The decoder's sanity check: one error per missing required key. -/
def sanityCheck (d : Doc) : Configuration :=
  requiredKeys.foldl (sanityStep d) Configuration.init

/-- The decoder's `bot`-section checks: missing `nickname`, `username`
or `realname` each append an error and invalidate. -/
def botCheck (c : Configuration) (bot : BotSection) : Configuration :=
  let c1 := if bot.nickname.isNone
    then (c.appendErrorMessage "Missing nickname.").invalidate else c
  let c2 := if bot.username.isNone
    then (c1.appendErrorMessage "Missing username.").invalidate else c1
  if bot.realname.isNone
    then (c2.appendErrorMessage "Missing realname").invalidate else c2

/-- One iteration of the decoder's server loop: `hostname` required
(else warning, entry skipped), `port` defaults to 6667, `ssl` defaults
to false. -/
def serverStep (c : Configuration) (s : ServerEntry) : Configuration :=
  match s.hostname with
  | none => c.appendWarningMessage "Ignored server-entry due to lack of hostname."
  | some hostname =>
    c.addServer ⟨hostname, s.port.getD 6667, s.ssl.getD false⟩

/-- One iteration of the decoder's user loop: `name` and `mask`
required (else warning, entry skipped); a universally matching mask
skips the entry with a warning; an unrecognized class falls back to
`"user"` with a warning but the entry is still added. -/
def userStep (c : Configuration) (u : UserEntry) : Configuration :=
  match u.name with
  | none => c.appendWarningMessage "Ignored user-entry due to lack of name."
  | some name =>
    match u.mask with
    | none => c.appendWarningMessage "Ignored user-entry due to lack of mask."
    | some mask =>
      if mask ∈ invalidUserMasks then
        c.appendWarningMessage ("Insecure mask for user '" ++ name ++ "'")
      else
        match u.userClass with
        | none => c.addUser ⟨name, mask, "user"⟩
        | some cl =>
          if cl ∈ validUserClasses then c.addUser ⟨name, mask, cl⟩
          else (c.appendWarningMessage ("Ignoring invalid class '" ++ cl ++ "'.")).addUser
            ⟨name, mask, "user"⟩

/-- `set.add` of a possibly shared registry `User` object into a
channel's operator set: deduplicating append. -/
def insertOp (ops : List User) (u : User) : List User :=
  if u ∈ ops then ops else ops ++ [u]

/-- One iteration of the decoder's operator loop within a channel
entry: an operator name unknown to the registry is dropped with a
warning, otherwise the registry object is added to the set. -/
def opStep (acc : Configuration × List User) (opName : String) : Configuration × List User :=
  match acc.1.findUser opName with
  | none => (acc.1.appendWarningMessage ("Unknown operator '" ++ opName ++ "'"), acc.2)
  | some u => (acc.1, insertOp acc.2 u)

/-- One iteration of the decoder's channel loop: `name` required (else
warning, entry skipped); operator names are resolved against the
already-populated registry. -/
def channelStep (c : Configuration) (ch : ChannelEntry) : Configuration :=
  match ch.name with
  | none => c.appendWarningMessage "Ignored channel-entry due to lack of name."
  | some name =>
    let acc := (ch.operators.getD []).foldl opStep (c, [])
    acc.1.addChannel ⟨name, acc.2⟩

/-- The body of `ConfigurationDecoder.decode` after the sanity check
has passed (all four sections present): `bot` field checks with early
return, then the server, user and channel loops in source order. -/
def decodeBody (c1 : Configuration) (bot : BotSection) (servers : List ServerEntry)
    (users : List UserEntry) (channels : List ChannelEntry) : Configuration :=
  let c4 := botCheck c1 bot
  if c4.valid then
    match bot.nickname, bot.username, bot.realname with
    | some nick, some uname, some rname =>
      let c5 := { c4 with nickname := nick, username := uname, realname := rname }
      let c6 := servers.foldl serverStep c5
      let c7 := users.foldl userStep c6
      channels.foldl channelStep c7
    | _, _, _ => c4
  else c4

/-- `ConfigurationDecoder.decode`: sanity-check the four required
sections (collecting every missing-key error before the early return),
then decode the body.  The fallback arm of the match is unreachable:
after a passing sanity check all four sections are present. -/
def ConfigurationDecoder.decode (d : Doc) : Configuration :=
  let c1 := sanityCheck d
  if c1.valid then
    match d.bot, d.servers, d.users, d.channels with
    | some bot, some servers, some users, some channels =>
      decodeBody c1 bot servers users channels
    | _, _, _, _ => c1
  else c1

/-- `ConfigurationEncoder.default`: the structural mirror of the
decoder's input shape — every declared server, user and channel is
emitted with all of its keys present. -/
def ConfigurationEncoder.encode (c : Configuration) : Doc :=
  { bot := some ⟨some c.nickname, some c.username, some c.realname⟩
  , servers := some (c.servers.map fun s => ⟨some s.hostname, some s.port, some s.ssl⟩)
  , users := some (c.getUsers.map fun u => ⟨some u.name, some u.mask, some u.userClass⟩)
  , channels := some (c.channels.map fun ch =>
      ⟨some ch.name, some (ch.operators.map User.name)⟩) }

/-- `ConfigurationService.reload`, given the current configuration and
the candidate document the loader read: an invalid candidate leaves the
current configuration in place, a valid one replaces it.  The second
component is the list of messages the reload path emits to the user;
the source contains no print or notice call on either path (the FIXME
comment in the invalid branch marks the missing warning), so it is
empty on every path. -/
def reload (current : Configuration) (candidate : Doc) : Configuration × List String :=
  let config := ConfigurationDecoder.decode candidate
  if config.valid then (config, []) else (current, [])

/-- `ConfigurationService.nextServer`: `popleft` then `append` on the
server deque, returning the popped server; `none` marks the exception
`popleft` raises on an empty deque. -/
def nextServer : List Server → Option (Server × List Server)
  | [] => none
  | s :: rest => some (s, rest ++ [s])

/-- The mutable state of the `ConfigurationService` that event handling
touches: the current configuration and the per-channel runtime state
dict. -/
structure ServiceState where
  config : Configuration
  channelStates : List (String × ChannelState)
  deriving DecidableEq

/-- `ConfigurationService.getChannelState`. -/
def ServiceState.getChannelState (svc : ServiceState) (channel : String) : Option ChannelState :=
  dictGet svc.channelStates channel

/-- `ConfigurationService.joinedChannel`: installs a fresh
`ChannelState` (unopped) for the channel. -/
def ServiceState.joinedChannel (svc : ServiceState) (channel : String) : ServiceState :=
  { svc with channelStates := dictSet svc.channelStates channel ⟨channel, false⟩ }

/-- `ConfigurationService.partedChannel`: `del self.channelStates[channel]`;
`none` marks the `KeyError` raised when no state exists for the
channel. -/
def ServiceState.partedChannel (svc : ServiceState) (channel : String) : Option ServiceState :=
  match dictDel svc.channelStates channel with
  | none => none
  | some states => some { svc with channelStates := states }

/-- `ConfigurationService.findOperatorCandidates`: empty for a channel
absent from policy; otherwise every configured operator of the channel
whose mask matches the rendered hostmask. -/
def ServiceState.findOperatorCandidates (svc : ServiceState) (hostmask : Hostmask)
    (channel : String) : List User :=
  match svc.config.getChannel channel with
  | none => []
  | some c => c.operators.filter (fun op => op.matchMask hostmask.render)

/-- An outbound IRC command issued by the client. -/
inductive Command where
  | opCmd : String → String → Command
  | joinCmd : String → Command
  | noticeCmd : String → String → Command
  deriving DecidableEq

/-- `Client.considerOpping`: no channel state, or a state that is not
opped, returns without issuing anything; otherwise a single op command
is issued when at least one operator candidate matches. -/
def considerOpping (svc : ServiceState) (hostmask : Hostmask) (channel : String) :
    List Command :=
  match svc.getChannelState channel with
  | none => []
  | some cs =>
    if cs.opped = false then []
    else
      let ms := svc.findOperatorCandidates hostmask channel
      if ms.isEmpty then [] else [Command.opCmd channel hostmask.nickname]

/-- `Client.irc_JOIN`: asserts a single parameter, parses the prefix,
and immediately calls `getNickname` on the parse result — `none` marks
the `AssertionError` on a bad parameter list and the `AttributeError`
raised when the prefix fails to parse.  A self join records the channel
state; any other join is considered for auto-opping. -/
def irc_JOIN (svc : ServiceState) (pfx : String) (params : List String) :
    Option (ServiceState × List Command) :=
  match params with
  | [channel] =>
    match Hostmask.parse pfx with
    | none => none
    | some hostmask =>
      if hostmask.nickname = svc.config.nickname then
        some (svc.joinedChannel channel, [])
      else
        some (svc, considerOpping svc hostmask channel)
  | _ => none

/-- `Client.ctcpQuery_OP`: only queries addressed to the bot's own
nickname with a payload and a parseable sender are considered; each
space-separated channel of the payload goes through `considerOpping`. -/
def ctcpQuery_OP (svc : ServiceState) (user target : String) (message : Option String) :
    ServiceState × List Command :=
  if target ≠ svc.config.nickname then (svc, [])
  else
    match message with
    | none => (svc, [])
    | some msg =>
      match Hostmask.parse user with
      | none => (svc, [])
      | some hostmask =>
        let channels := pySplit ' ' msg
        (svc, channels.foldl (fun cmds ch => cmds ++ considerOpping svc hostmask ch) [])

/-- `Client.cmd_whoami`: notices every matching registry entry back to
the requester, or a single `Unknown user` notice. -/
def cmdWhoami (svc : ServiceState) (hostmask : Hostmask) : List Command :=
  let users := svc.config.findMatches hostmask
  let target := hostmask.nickname
  if users.isEmpty then [Command.noticeCmd target "Unknown user"]
  else users.foldl (fun acc u =>
    acc ++ [Command.noticeCmd target ("Username: '" ++ u.name ++ "'"),
            Command.noticeCmd target ("Hostmask: '" ++ u.mask ++ "'"),
            Command.noticeCmd target ("Class:    '" ++ u.userClass ++ "'")]) []

/-- `Client.privmsg`: only messages addressed to the bot's own nickname
with a parseable sender are handled; the first word selects a handler
(`cmd_whoami` is the only one defined), anything else draws an
`Unknown Command` notice. -/
def privmsg (svc : ServiceState) (user target message : String) :
    ServiceState × List Command :=
  if svc.config.nickname ≠ target then (svc, [])
  else
    match Hostmask.parse user with
    | none => (svc, [])
    | some hostmask =>
      match pySplit ' ' message with
      | [] => (svc, [])
      | p0 :: _ =>
        if p0 = "whoami" then (svc, cmdWhoami svc hostmask)
        else (svc, [Command.noticeCmd hostmask.nickname ("Unknown Command: " ++ message)])

/-- `Client.userOpped`: when the bot itself is the target and a channel
state exists, mark it opped. -/
def userOpped (svc : ServiceState) (user target channel : String) : ServiceState :=
  if svc.config.nickname = target then
    match dictGet svc.channelStates channel with
    | none => svc
    | some cs =>
      { svc with channelStates := dictSet svc.channelStates channel { cs with opped := true } }
  else svc

/-- `Client.userDeopped`: when the bot itself is the target and a
channel state exists, mark it unopped. -/
def userDeopped (svc : ServiceState) (user target channel : String) : ServiceState :=
  if svc.config.nickname = target then
    match dictGet svc.channelStates channel with
    | none => svc
    | some cs =>
      { svc with channelStates := dictSet svc.channelStates channel { cs with opped := false } }
  else svc

/-- `Client.modeChanged`: zips mode letters with their arguments and
applies every `o` change.  The sender prefix is parsed only to choose a
printed name (with the raw prefix as fallback), so the state effect is
independent of whether the prefix parses. -/
def modeChanged (svc : ServiceState) (user channel : String) (added : Bool)
    (modes : String) (args : List String) : ServiceState :=
  (modes.data.zip args).foldl (fun s pair =>
    if pair.1 = 'o' then
      if added then userOpped s user pair.2 channel
      else userDeopped s user pair.2 channel
    else s) svc

/-- `Client.kickedFrom`: destroys the channel state (a `KeyError`, as
in `partedChannel`, is marked by `none`) and immediately rejoins. -/
def kickedFrom (svc : ServiceState) (channel kicker message : String) :
    Option (ServiceState × List Command) :=
  match svc.partedChannel channel with
  | none => none
  | some svc2 => some (svc2, [Command.joinCmd channel])

/-! ### Concrete fixtures used by witnesses and counterexamples -/

/-- The empty policy document: all four sections absent. -/
def docEmpty : Doc := ⟨none, none, none, none⟩

/-- A fully valid policy document. -/
def docFull : Doc :=
  { bot := some ⟨some "mybot", some "bot", some "The Bot"⟩
  , servers := some [⟨some "irc.example.org", some 6697, some true⟩]
  , users := some [⟨some "alice", some "alice!*@trusted.example", some "admin"⟩]
  , channels := some [⟨some "#test", some ["alice"]⟩] }

/-- A document whose `bot` section lacks `nickname` (the reload-failure
scenario of the specification). -/
def docMissingNickname : Doc :=
  { bot := some ⟨none, some "bot", some "The Bot"⟩
  , servers := some [], users := some [], channels := some [] }

/-- A document with one user entry carrying the universally matching
mask `*`, inside a document that lacks the `channels` section. -/
def docInsecureEarlyReturn : Doc :=
  { bot := some ⟨some "mybot", some "bot", some "The Bot"⟩
  , servers := some []
  , users := some [⟨some "alice", some "*", none⟩]
  , channels := none }

/-- A service state over `docFull` whose channel `#test` is joined and
opped. -/
def svcOpped : ServiceState :=
  { config := ConfigurationDecoder.decode docFull
  , channelStates := [("#test", ⟨"#test", true⟩)] }

/-- A service state whose channel `#t` is joined but not opped, for a
bot whose nickname is `mybot`. -/
def svcUnopped : ServiceState :=
  { config := ConfigurationDecoder.decode docFull
  , channelStates := [("#t", ⟨"#t", false⟩)] }

/-- A service state with no channel states at all. -/
def svcEmpty : ServiceState := ⟨Configuration.init, []⟩

/-- A service state for a bot nicknamed `mybot`, joined but not opped
on `#t`. -/
def svcModeCex : ServiceState :=
  { config := { Configuration.init with nickname := "mybot" }
  , channelStates := [("#t", ⟨"#t", false⟩)] }

/-- A document with a complete `bot` section but missing the `servers`
and `channels` sections. -/
def docMissingTwo : Doc :=
  { bot := some ⟨some "mybot", some "bot", some "The Bot"⟩
  , servers := none, users := some [], channels := none }

/-- A fully valid document whose single user entry carries the
universally matching mask `*`. -/
def docInsecureFull : Doc :=
  { bot := some ⟨some "mybot", some "bot", some "The Bot"⟩
  , servers := some []
  , users := some [⟨some "alice", some "*", none⟩]
  , channels := some [] }

/-- Well-formedness of the embedded user registry: every entry is
keyed by its user's name, carries none of the universally matching
masks, and carries a valid class; the keys are unique.  Established for
every decoder output. -/
def usersWF (c : Configuration) : Prop :=
  (∀ p ∈ c.users, p.1 = p.2.name ∧ p.2.mask ∉ invalidUserMasks ∧
    p.2.userClass ∈ validUserClasses) ∧
  (c.users.map Prod.fst).Nodup

/-- Well-formedness of the decoded channel list: every operator of
every channel is a registry entry (keyed by its name), and operator
sets hold no duplicates.  Established for every decoder output. -/
def channelsWF (c : Configuration) : Prop :=
  ∀ ch ∈ c.channels, (∀ u ∈ ch.operators, (u.name, u) ∈ c.users) ∧ ch.operators.Nodup

/-! ### Lemmas about `splitChar` -/

theorem splitChar_ne_nil (sep : Char) (cs : List Char) : splitChar sep cs ≠ [] := by
  induction cs with
  | nil => simp [splitChar]
  | cons c rest ih =>
    rw [splitChar]
    split
    · simp
    · split <;> simp

theorem splitChar_singleton (sep : Char) (cs : List Char) : ∀ x,
    splitChar sep cs = [x] → cs = x := by
  induction cs with
  | nil => intro x h; rw [splitChar] at h; simp at h; simp [h]
  | cons c rest ih =>
    intro x h
    rw [splitChar] at h
    split at h
    · simp at h
      exact absurd h.2 (splitChar_ne_nil sep rest)
    · split at h
      · next heq => exact absurd heq (splitChar_ne_nil sep rest)
      · next g gs heq =>
        simp at h
        obtain ⟨hx, hgs⟩ := h
        subst hgs
        have hrest := ih g heq
        subst hrest
        simp [hx]

theorem splitChar_pair (sep : Char) (cs : List Char) : ∀ a b,
    splitChar sep cs = [a, b] → cs = a ++ sep :: b := by
  induction cs with
  | nil => intro a b h; rw [splitChar] at h; simp at h
  | cons c rest ih =>
    intro a b h
    rw [splitChar] at h
    split at h
    · next hc =>
      simp at h
      obtain ⟨ha, hrest⟩ := h
      have := splitChar_singleton sep rest b hrest
      simp [← ha, hc, this]
    · split at h
      · next heq => exact absurd heq (splitChar_ne_nil sep rest)
      · next g gs heq =>
        simp at h
        obtain ⟨ha, hgs⟩ := h
        subst hgs
        have hrest := ih g b heq
        subst hrest
        simp [← ha]

/-! ### Lemmas about dict embedding -/

theorem dictDel_none {α : Type} (d : List (String × α)) (k : String)
    (h : dictGet d k = none) : dictDel d k = none := by
  induction d with
  | nil => rfl
  | cons p rest ih =>
    obtain ⟨k2, v⟩ := p
    rw [dictGet] at h
    rw [dictDel]
    split
    · next heq => rw [if_pos heq] at h; exact absurd h (by simp)
    · next heq => rw [if_neg heq] at h; rw [ih h]; rfl

theorem mem_dictSet {α : Type} (d : List (String × α)) (k : String) (v : α) :
    ∀ p ∈ dictSet d k v, p ∈ d ∨ p = (k, v) := by
  induction d with
  | nil => intro p hp; rw [dictSet] at hp; simp at hp; simp [hp]
  | cons q rest ih =>
    obtain ⟨k2, v2⟩ := q
    intro p hp
    rw [dictSet] at hp
    split at hp
    · rcases List.mem_cons.mp hp with h1 | h2
      · exact Or.inr h1
      · exact Or.inl (List.mem_cons_of_mem _ h2)
    · rcases List.mem_cons.mp hp with h1 | h2
      · exact Or.inl (by simp [h1])
      · rcases ih p h2 with h3 | h4
        · exact Or.inl (List.mem_cons_of_mem _ h3)
        · exact Or.inr h4

theorem keys_dictSet {α : Type} (k : String) (v : α) :
    ∀ d : List (String × α),
      (dictSet d k v).map Prod.fst =
        if k ∈ d.map Prod.fst then d.map Prod.fst else d.map Prod.fst ++ [k] := by
  intro d
  induction d with
  | nil => simp [dictSet]
  | cons q rest ih =>
    obtain ⟨k2, v2⟩ := q
    rw [dictSet]
    split
    · next heq => simp [heq]
    · next hne =>
      have hkk2 : ¬(k = k2) := fun hc => hne hc.symm
      simp only [List.map_cons, ih]
      by_cases hmem : k ∈ rest.map Prod.fst
      · simp [hmem, hkk2]
      · simp [hmem, hkk2]

theorem nodup_keys_dictSet {α : Type} (d : List (String × α)) (k : String) (v : α)
    (h : (d.map Prod.fst).Nodup) : ((dictSet d k v).map Prod.fst).Nodup := by
  rw [keys_dictSet]
  split
  · exact h
  · next hnot =>
    rw [List.nodup_append]
    exact ⟨h, List.nodup_singleton k, by simpa using hnot⟩

theorem dictSet_append {α : Type} (k : String) (v : α) :
    ∀ d : List (String × α), k ∉ d.map Prod.fst → dictSet d k v = d ++ [(k, v)] := by
  intro d
  induction d with
  | nil => intro; rfl
  | cons q rest ih =>
    obtain ⟨k2, v2⟩ := q
    intro hk
    simp only [List.map_cons, List.mem_cons] at hk
    push_neg at hk
    rw [dictSet, if_neg (fun hc => hk.1 hc.symm), ih hk.2]
    rfl

theorem dictGet_mem {α : Type} {k : String} {v : α} :
    ∀ {d : List (String × α)}, dictGet d k = some v → (k, v) ∈ d := by
  intro d
  induction d with
  | nil => intro h; rw [dictGet] at h; exact absurd h (by simp)
  | cons q rest ih =>
    obtain ⟨k2, v2⟩ := q
    intro h
    rw [dictGet] at h
    split at h
    · next heq =>
      simp only [Option.some.injEq] at h
      simp [heq, h]
    · exact List.mem_cons_of_mem _ (ih h)

theorem mem_dictGet {α : Type} {k : String} {v : α} :
    ∀ {d : List (String × α)}, (d.map Prod.fst).Nodup → (k, v) ∈ d →
      dictGet d k = some v := by
  intro d
  induction d with
  | nil => intro _ h; simp at h
  | cons q rest ih =>
    obtain ⟨k2, v2⟩ := q
    intro hnd hm
    simp only [List.map_cons, List.nodup_cons] at hnd
    rcases List.mem_cons.mp hm with h1 | h2
    · have hk : k2 = k := (congrArg Prod.fst h1).symm
      have hv : v2 = v := (congrArg Prod.snd h1).symm
      rw [dictGet, if_pos hk, hv]
    · have hne : k2 ≠ k := by
        intro hc
        subst hc
        exact hnd.1 (by simpa using List.mem_map_of_mem Prod.fst h2)
      rw [dictGet, if_neg hne]
      exact ih hnd.2 h2

theorem sanity_foldl (d : Doc) (keys : List String) : ∀ c : Configuration,
    keys.foldl (sanityStep d) c =
      { c with
        valid := c.valid && keys.all (docHasKey d),
        errorMessages := c.errorMessages ++
          (keys.filter (fun k => !docHasKey d k)).map lacksKeyMsg } := by
  induction keys with
  | nil => intro c; simp
  | cons k ks ih =>
    intro c
    rw [List.foldl_cons, ih]
    by_cases hk : docHasKey d k
    · simp [sanityStep, hk]
    · simp [sanityStep, hk, Configuration.appendErrorMessage, Configuration.invalidate]

/-! ### Claim theorems -/

/-- Claim C8: `nextServer` rotates the cyclic server sequence one step
per call; starting from `[A, B, C]`, four consecutive calls return `A`,
`B`, `C` and then `A` again, threading the rotated deque through. -/
theorem nextServer_round_robin (A B C : Server) :
    nextServer [A, B, C] = some (A, [B, C, A]) ∧
    nextServer [B, C, A] = some (B, [C, A, B]) ∧
    nextServer [C, A, B] = some (C, [A, B, C]) ∧
    nextServer [A, B, C] = some (A, [B, C, A]) :=
  ⟨rfl, rfl, rfl, rfl⟩

/-- Claim C10: destroying a channel's runtime state is only defined
when that state exists — `partedChannel` for a channel with no
`ChannelState` entry raises a `KeyError` (embedded as `none`) rather
than being a no-op, so `kickedFrom` on such a channel is not handled
totally. -/
theorem partedChannel_missing_raises (svc : ServiceState) (channel : String)
    (h : svc.getChannelState channel = none) :
    svc.partedChannel channel = none ∧
    (∀ kicker message, kickedFrom svc channel kicker message = none) := by
  have hdel : dictDel svc.channelStates channel = none := dictDel_none _ _ h
  refine ⟨?_, fun kicker message => ?_⟩
  · simp [ServiceState.partedChannel, hdel]
  · simp [kickedFrom, ServiceState.partedChannel, hdel]

/-- Witness for C10 at a concrete input: with no channel states at all,
`partedChannel "#test"` and a kick from `#test` both raise. -/
theorem partedChannel_missing_raises_witness :
    svcEmpty.partedChannel "#test" = none ∧
    kickedFrom svcEmpty "#test" "mallory" "bye" = none :=
  ⟨(partedChannel_missing_raises svcEmpty "#test" (by decide)).1,
   (partedChannel_missing_raises svcEmpty "#test" (by decide)).2 "mallory" "bye"⟩

/-- Claim C2: a reload whose candidate decodes to an invalid
configuration leaves the current configuration exactly in place; only a
valid candidate replaces it. -/
theorem reload_invalid_keeps_current (current : Configuration) (candidate : Doc) :
    ((ConfigurationDecoder.decode candidate).valid = false →
      (reload current candidate).1 = current) ∧
    ((ConfigurationDecoder.decode candidate).valid = true →
      (reload current candidate).1 = ConfigurationDecoder.decode candidate) := by
  constructor <;> intro h <;> simp [reload, h]

/-- Witness for C2 at a concrete input: reloading the empty document
(invalid) keeps the current configuration untouched. -/
theorem reload_invalid_keeps_current_witness :
    (ConfigurationDecoder.decode docEmpty).valid = false ∧
    (reload Configuration.init docEmpty).1 = Configuration.init :=
  ⟨by decide, (reload_invalid_keeps_current Configuration.init docEmpty).1 (by decide)⟩

/-- Claim C3, refuted by the code: the reload path emits no message at
all on any input — in particular none on the specification's failing
input, a candidate document missing `bot.nickname`, which does decode
to an invalid configuration and silently leaves the current one in
place.  (The FIXME comment in the source's invalid branch marks the
missing warning.) -/
theorem reload_reports_nothing :
    (∀ current candidate, (reload current candidate).2 = []) ∧
    (ConfigurationDecoder.decode docMissingNickname).valid = false ∧
    (reload Configuration.init docMissingNickname).1 = Configuration.init := by
  refine ⟨fun current candidate => ?_, by decide, by decide⟩
  rw [reload]
  split <;> rfl

/-- Counterexample for C9 as stated: `"!@"` is accepted by
`Hostmask.parse`, yet every component of the result is the empty
string. -/
theorem parse_empty_components_cex :
    ∃ h, Hostmask.parse "!@" = some h ∧
      h.nickname = "" ∧ h.username = "" ∧ h.hostname = "" :=
  ⟨⟨"", "", ""⟩, by decide, rfl, rfl, rfl⟩

/-- `Hostmask.render` of components built from character lists. -/
theorem render_mk (n u ho : List Char) :
    Hostmask.render ⟨String.mk n, String.mk u, String.mk ho⟩ =
      String.mk ((((n ++ ['!']) ++ u) ++ ['@']) ++ ho) := rfl

/-- Claim C9, amended: an accepted input need not have non-empty
components; instead, the components are exactly the (possibly empty)
substrings around the unique `'@'` and the unique `'!'` before it, so
rendering the parsed hostmask reproduces the input string. -/
theorem parse_render_inverse (s : String) (h : Hostmask)
    (hp : Hostmask.parse s = some h) : h.render = s := by
  obtain ⟨cs⟩ := s
  rw [Hostmask.parse] at hp
  split at hp
  · next front host heq1 =>
    split at hp
    · next nick user heq2 =>
      simp only [Option.some.injEq] at hp
      subst hp
      have e1 := splitChar_pair '@' cs front host heq1
      have e2 := splitChar_pair '!' front nick user heq2
      subst e2
      subst e1
      rw [render_mk]
      simp
    · simp at hp
  · simp at hp

/-- Witness for C9's amended claim at a concrete input. -/
theorem parse_render_inverse_witness :
    Hostmask.render ⟨"alice", "a", "trusted.example"⟩ = "alice!a@trusted.example" :=
  parse_render_inverse "alice!a@trusted.example" ⟨"alice", "a", "trusted.example"⟩
    (by decide)

/-- Any command emitted by `considerOpping` arrives with an existing,
opped channel state, and is the single op command for the joiner's
nickname. -/
theorem considerOpping_mem {svc : ServiceState} {hostmask : Hostmask}
    {channel : String} {cmd : Command} (h : cmd ∈ considerOpping svc hostmask channel) :
    (∃ cs, svc.getChannelState channel = some cs ∧ cs.opped = true) ∧
    cmd = Command.opCmd channel hostmask.nickname := by
  rw [considerOpping] at h
  split at h
  · simp at h
  · next cs heq =>
    split at h
    · simp at h
    · next hop =>
      have hopped : cs.opped = true := by
        cases hcs : cs.opped
        · exact absurd hcs hop
        · rfl
      by_cases hms : (svc.findOperatorCandidates hostmask channel).isEmpty = true
      · simp [hms] at h
      · simp [hms] at h
        exact ⟨⟨cs, heq, hopped⟩, h⟩

/-- Membership in a fold that appends `f x` for each element. -/
theorem mem_foldl_append {α β : Type} (f : α → List β) (l : List α) :
    ∀ (start : List β) (b : β),
      b ∈ l.foldl (fun acc x => acc ++ f x) start → b ∈ start ∨ ∃ x ∈ l, b ∈ f x := by
  induction l with
  | nil => intro start b h; exact Or.inl h
  | cons x xs ih =>
    intro start b h
    rcases ih (start ++ f x) b h with hi | ⟨y, hy, hb⟩
    · rcases List.mem_append.mp hi with h1 | h2
      · exact Or.inl h1
      · exact Or.inr ⟨x, by simp, h2⟩
    · exact Or.inr ⟨y, by simp [hy], hb⟩

/-- Claim C1: on a channel-join event by a non-self user and on a CTCP
OP request alike, an outbound op command is issued only when a
`ChannelState` exists for that channel and it is opped; with no state
or an unopped state, `considerOpping` issues nothing for any joining
hostmask. -/
theorem autoop_requires_opped :
    (∀ svc hostmask channel,
      ((svc.getChannelState channel = none ∨
        ∃ cs, svc.getChannelState channel = some cs ∧ cs.opped = false) →
        considerOpping svc hostmask channel = []) ∧
      (∀ cmd, cmd ∈ considerOpping svc hostmask channel →
        ∃ cs, svc.getChannelState channel = some cs ∧ cs.opped = true)) ∧
    (∀ svc pfx params out, irc_JOIN svc pfx params = some out →
      ∀ c n, Command.opCmd c n ∈ out.2 →
        ∃ cs, svc.getChannelState c = some cs ∧ cs.opped = true) ∧
    (∀ svc user target message c n,
      Command.opCmd c n ∈ (ctcpQuery_OP svc user target message).2 →
        ∃ cs, svc.getChannelState c = some cs ∧ cs.opped = true) := by
  refine ⟨fun svc hostmask channel => ⟨?_, ?_⟩, ?_, ?_⟩
  · rintro (hnone | ⟨cs, hsome, hcs⟩)
    · simp [considerOpping, hnone]
    · simp [considerOpping, hsome, hcs]
  · intro cmd h
    exact (considerOpping_mem h).1
  · intro svc pfx params out hj c n hmem
    cases params with
    | nil => simp [irc_JOIN] at hj
    | cons p rest =>
      cases rest with
      | cons q more => simp [irc_JOIN] at hj
      | nil =>
        cases hp : Hostmask.parse pfx with
        | none => simp [irc_JOIN, hp] at hj
        | some hostmask =>
          by_cases hself : hostmask.nickname = svc.config.nickname
          · simp only [irc_JOIN, hp, if_pos hself, Option.some.injEq] at hj
            subst hj
            simp at hmem
          · simp only [irc_JOIN, hp, if_neg hself, Option.some.injEq] at hj
            subst hj
            dsimp only at hmem
            obtain ⟨⟨cs, hsome, hcs⟩, heq⟩ := considerOpping_mem hmem
            obtain ⟨rfl, rfl⟩ : c = p ∧ n = hostmask.nickname := by
              simpa using heq
            exact ⟨cs, hsome, hcs⟩
  · intro svc user target message c n hmem
    rw [ctcpQuery_OP.eq_def] at hmem
    split at hmem
    · simp at hmem
    · split at hmem
      · simp at hmem
      · split at hmem
        · simp at hmem
        · simp only at hmem
          rcases mem_foldl_append _ _ _ _ hmem with hfalse | ⟨ch, _, hin⟩
          · simp at hfalse
          · obtain ⟨⟨cs, hsome, hcs⟩, heq⟩ := considerOpping_mem hin
            obtain ⟨rfl, rfl⟩ : c = ch ∧ n = _ := by simpa using heq
            exact ⟨cs, hsome, hcs⟩

/-- Witness for C1 at concrete inputs: with `#test` joined and opped,
`alice` matching the configured operator mask draws the op command and
the state obligation is discharged; with `#t` joined but unopped, the
same joiner draws nothing. -/
theorem autoop_requires_opped_witness :
    (Command.opCmd "#test" "alice" ∈
      considerOpping svcOpped ⟨"alice", "a", "trusted.example"⟩ "#test") ∧
    (∃ cs, svcOpped.getChannelState "#test" = some cs ∧ cs.opped = true) ∧
    considerOpping svcUnopped ⟨"alice", "a", "trusted.example"⟩ "#t" = [] :=
  ⟨by decide,
   (autoop_requires_opped.1 svcOpped ⟨"alice", "a", "trusted.example"⟩ "#test").2
     (Command.opCmd "#test" "alice") (by decide),
   (autoop_requires_opped.1 svcUnopped ⟨"alice", "a", "trusted.example"⟩ "#t").1
     (Or.inr ⟨⟨"#t", false⟩, by decide, rfl⟩)⟩

/-- Counterexample for C5 as stated: the sender prefix
`irc.example.net` fails hostmask parsing, yet a mode-change event from
it is not ignored — it flips the channel state to opped — and a join
event with that prefix raises (`none`) instead of being ignored. -/
theorem unparseable_prefix_cex :
    Hostmask.parse "irc.example.net" = none ∧
    modeChanged svcModeCex "irc.example.net" "#t" true "o" ["mybot"] ≠ svcModeCex ∧
    irc_JOIN svcModeCex "irc.example.net" ["#t"] = none :=
  ⟨by decide, by decide, by decide⟩

/-- Claim C5, amended: a private message or CTCP OP request whose
sender prefix fails parsing is ignored (state unchanged, nothing
issued, no exception); a join event with an unparseable prefix instead
raises an `AttributeError` (embedded as `none`); a mode-change event is
processed identically whether or not its sender prefix parses, since
the parse result only selects a logged name. -/
theorem unparseable_prefix_handling :
    (∀ svc user target message, Hostmask.parse user = none →
      privmsg svc user target message = (svc, [])) ∧
    (∀ svc user target message, Hostmask.parse user = none →
      ctcpQuery_OP svc user target message = (svc, [])) ∧
    (∀ svc pfx params, Hostmask.parse pfx = none →
      irc_JOIN svc pfx params = none) ∧
    (∀ svc user user2 channel added modes args,
      modeChanged svc user channel added modes args =
        modeChanged svc user2 channel added modes args) := by
  refine ⟨?_, ?_, ?_, ?_⟩
  · intro svc user target message h
    rw [privmsg]
    split
    · rfl
    · rw [h]
  · intro svc user target message h
    rw [ctcpQuery_OP.eq_def]
    split
    · rfl
    · cases message with
      | none => rfl
      | some msg => rw [h]
  · intro svc pfx params h
    cases params with
    | nil => simp [irc_JOIN]
    | cons p rest =>
      cases rest with
      | nil => simp [irc_JOIN, h]
      | cons q more => simp [irc_JOIN]
  · intro svc user user2 channel added modes args
    rfl

/-- Witness for C5's amended claim at concrete inputs. -/
theorem unparseable_prefix_handling_witness :
    privmsg svcModeCex "irc.example.net" "mybot" "hello" = (svcModeCex, []) ∧
    ctcpQuery_OP svcModeCex "irc.example.net" "mybot" (some "#t") = (svcModeCex, []) ∧
    irc_JOIN svcModeCex "irc.example.net" ["#t"] = none :=
  ⟨unparseable_prefix_handling.1 svcModeCex "irc.example.net" "mybot" "hello" (by decide),
   unparseable_prefix_handling.2.1 svcModeCex "irc.example.net" "mybot" (some "#t")
     (by decide),
   unparseable_prefix_handling.2.2.1 svcModeCex "irc.example.net" ["#t"] (by decide)⟩

/-- Claim C6: a document missing any of the four required sections
decodes to an invalid configuration whose error list holds exactly the
missing-key message of every missing section (all of them, in
`required_keys` order), with no servers, users or channels
populated. -/
theorem decode_missing_sections (d : Doc)
    (h : ∃ k ∈ requiredKeys, docHasKey d k = false) :
    (ConfigurationDecoder.decode d).valid = false ∧
    (ConfigurationDecoder.decode d).errorMessages =
      (requiredKeys.filter (fun k => !docHasKey d k)).map lacksKeyMsg ∧
    (ConfigurationDecoder.decode d).servers = [] ∧
    (ConfigurationDecoder.decode d).users = [] ∧
    (ConfigurationDecoder.decode d).channels = [] := by
  have hall : requiredKeys.all (docHasKey d) = false := by
    obtain ⟨k, hk, hfalse⟩ := h
    cases hastrue : requiredKeys.all (docHasKey d)
    · rfl
    · rw [List.all_eq_true] at hastrue
      have := hastrue k hk
      rw [hfalse] at this
      exact absurd this (by simp)
  have hc1 : sanityCheck d =
      { Configuration.init with
        valid := false
        errorMessages :=
          (requiredKeys.filter (fun k => !docHasKey d k)).map lacksKeyMsg } := by
    rw [sanityCheck, sanity_foldl]
    simp [Configuration.init, hall]
  refine ⟨?_, ?_, ?_, ?_, ?_⟩ <;>
    simp [ConfigurationDecoder.decode, hc1, Configuration.init]

/-- Witness for C6 at a concrete input: a document missing `servers`
and `channels` reports both (and only those), stays invalid, and
populates nothing. -/
theorem decode_missing_sections_witness :
    (ConfigurationDecoder.decode docMissingTwo).valid = false ∧
    (ConfigurationDecoder.decode docMissingTwo).errorMessages =
      (requiredKeys.filter (fun k => !docHasKey docMissingTwo k)).map lacksKeyMsg ∧
    (ConfigurationDecoder.decode docMissingTwo).servers = [] ∧
    (ConfigurationDecoder.decode docMissingTwo).users = [] ∧
    (ConfigurationDecoder.decode docMissingTwo).channels = [] :=
  decode_missing_sections docMissingTwo ⟨"servers", by decide, by decide⟩

/-- Counterexample for C4 as stated: in a document that lacks the
`channels` section, a user entry with the universally matching mask `*`
draws no warning at all — decode returns early from the sanity check,
so the quantification over every input document fails. -/
theorem insecure_mask_no_warning_cex :
    docInsecureEarlyReturn.users = some [⟨some "alice", some "*", none⟩] ∧
    "*" ∈ invalidUserMasks ∧
    (ConfigurationDecoder.decode docInsecureEarlyReturn).warningMessages = [] ∧
    (ConfigurationDecoder.decode docInsecureEarlyReturn).users = [] :=
  ⟨rfl, by decide, by decide, by decide⟩

/-! ### Field preservation through the decoder's stages -/

theorem sanityCheck_users (d : Doc) : (sanityCheck d).users = [] := by
  rw [sanityCheck, sanity_foldl]
  rfl

theorem sanityCheck_channels (d : Doc) : (sanityCheck d).channels = [] := by
  rw [sanityCheck, sanity_foldl]
  rfl

theorem botCheck_users (c : Configuration) (b : BotSection) :
    (botCheck c b).users = c.users := by
  rw [botCheck]
  by_cases h1 : b.nickname.isNone = true <;> by_cases h2 : b.username.isNone = true <;>
    by_cases h3 : b.realname.isNone = true <;>
    simp [h1, h2, h3, Configuration.appendErrorMessage, Configuration.invalidate]

theorem botCheck_channels (c : Configuration) (b : BotSection) :
    (botCheck c b).channels = c.channels := by
  rw [botCheck]
  by_cases h1 : b.nickname.isNone = true <;> by_cases h2 : b.username.isNone = true <;>
    by_cases h3 : b.realname.isNone = true <;>
    simp [h1, h2, h3, Configuration.appendErrorMessage, Configuration.invalidate]

theorem serverStep_users (c : Configuration) (s : ServerEntry) :
    (serverStep c s).users = c.users := by
  rw [serverStep.eq_def]
  split <;> rfl

theorem serverStep_channels (c : Configuration) (s : ServerEntry) :
    (serverStep c s).channels = c.channels := by
  rw [serverStep.eq_def]
  split <;> rfl

theorem foldl_serverStep_users (l : List ServerEntry) : ∀ c,
    (l.foldl serverStep c).users = c.users := by
  induction l with
  | nil => intro c; rfl
  | cons s rest ih => intro c; rw [List.foldl_cons, ih, serverStep_users]

theorem foldl_serverStep_channels (l : List ServerEntry) : ∀ c,
    (l.foldl serverStep c).channels = c.channels := by
  induction l with
  | nil => intro c; rfl
  | cons s rest ih => intro c; rw [List.foldl_cons, ih, serverStep_channels]

theorem userStep_channels (c : Configuration) (u : UserEntry) :
    (userStep c u).channels = c.channels := by
  rw [userStep.eq_def]
  repeat' split
  all_goals rfl

theorem foldl_userStep_channels (l : List UserEntry) : ∀ c,
    (l.foldl userStep c).channels = c.channels := by
  induction l with
  | nil => intro c; rfl
  | cons u rest ih => intro c; rw [List.foldl_cons, ih, userStep_channels]

theorem opStep_users (acc : Configuration × List User) (opName : String) :
    ((opStep acc opName).1).users = acc.1.users := by
  rw [opStep.eq_def]
  split <;> rfl

theorem foldl_opStep_users (ops : List String) : ∀ (acc : Configuration × List User),
    ((ops.foldl opStep acc).1).users = acc.1.users := by
  induction ops with
  | nil => intro acc; rfl
  | cons o rest ih => intro acc; rw [List.foldl_cons, ih, opStep_users]

theorem channelStep_users (c : Configuration) (ch : ChannelEntry) :
    (channelStep c ch).users = c.users := by
  rw [channelStep.eq_def]
  split
  · rfl
  · exact foldl_opStep_users _ (c, [])

theorem foldl_channelStep_users (l : List ChannelEntry) : ∀ c,
    (l.foldl channelStep c).users = c.users := by
  induction l with
  | nil => intro c; rfl
  | cons ch rest ih => intro c; rw [List.foldl_cons, ih, channelStep_users]

/-! ### Warning accumulation: folds only ever append warnings -/

theorem warnExt_foldl {α : Type} (f : Configuration → α → Configuration)
    (hf : ∀ c a, ∃ w, (f c a).warningMessages = c.warningMessages ++ w)
    (l : List α) : ∀ c, ∃ w, (l.foldl f c).warningMessages = c.warningMessages ++ w := by
  induction l with
  | nil => intro c; exact ⟨[], by simp⟩
  | cons a rest ih =>
    intro c
    obtain ⟨w1, hw1⟩ := hf c a
    obtain ⟨w2, hw2⟩ := ih (f c a)
    exact ⟨w1 ++ w2, by rw [List.foldl_cons, hw2, hw1, List.append_assoc]⟩

theorem mem_warn_foldl {α : Type} (f : Configuration → α → Configuration)
    (hf : ∀ c a, ∃ w, (f c a).warningMessages = c.warningMessages ++ w)
    (l : List α) (c : Configuration) (w : String) (hw : w ∈ c.warningMessages) :
    w ∈ (l.foldl f c).warningMessages := by
  obtain ⟨ws, hws⟩ := warnExt_foldl f hf l c
  rw [hws]
  exact List.mem_append_left _ hw

theorem mem_warn_foldl_elem {α : Type} (f : Configuration → α → Configuration)
    (hf : ∀ c a, ∃ w, (f c a).warningMessages = c.warningMessages ++ w)
    (l : List α) (a : α) (ha : a ∈ l) (w : String)
    (hw : ∀ c, w ∈ (f c a).warningMessages) :
    ∀ c, w ∈ (l.foldl f c).warningMessages := by
  induction l with
  | nil => cases ha
  | cons b rest ih =>
    intro c
    rw [List.foldl_cons]
    rcases List.mem_cons.mp ha with heq | hmem
    · subst heq
      exact mem_warn_foldl f hf rest (f c a) w (hw c)
    · exact ih hmem (f c b)

theorem userStep_warnExt (c : Configuration) (u : UserEntry) :
    ∃ w, (userStep c u).warningMessages = c.warningMessages ++ w := by
  rw [userStep.eq_def]
  repeat' split
  all_goals first
    | exact ⟨_, rfl⟩
    | exact ⟨[], by simp [Configuration.addUser, Configuration.appendWarningMessage]⟩

theorem channelStep_warnExt (c : Configuration) (ch : ChannelEntry) :
    ∃ w, (channelStep c ch).warningMessages = c.warningMessages ++ w := by
  rw [channelStep.eq_def]
  split
  · exact ⟨_, rfl⟩
  · have hstep : ∀ (acc : Configuration × List User) (o : String),
        ∃ w, ((opStep acc o).1).warningMessages = acc.1.warningMessages ++ w := by
      intro acc o
      rw [opStep.eq_def]
      split
      · exact ⟨_, rfl⟩
      · exact ⟨[], by simp⟩
    have hfold : ∀ (ops : List String) (acc : Configuration × List User),
        ∃ w, ((ops.foldl opStep acc).1).warningMessages = acc.1.warningMessages ++ w := by
      intro ops
      induction ops with
      | nil => intro acc; exact ⟨[], by simp⟩
      | cons o rest ih =>
        intro acc
        obtain ⟨w1, hw1⟩ := hstep acc o
        obtain ⟨w2, hw2⟩ := ih (opStep acc o)
        exact ⟨w1 ++ w2, by rw [List.foldl_cons, hw2, hw1, List.append_assoc]⟩
    obtain ⟨w, hw⟩ := hfold _ (c, [])
    exact ⟨w, hw⟩

/-- The warning the decoder's user loop records for an entry carrying a
universally matching mask (its lack-of-name warning when the entry has
no name). -/
theorem userStep_insecure_warning (c : Configuration) (u : UserEntry) (m : String)
    (hm : u.mask = some m) (hin : m ∈ invalidUserMasks) :
    (match u.name with
     | some n => "Insecure mask for user '" ++ n ++ "'"
     | none => "Ignored user-entry due to lack of name.") ∈
      (userStep c u).warningMessages := by
  obtain ⟨un, um, uc⟩ := u
  dsimp only at hm
  subst hm
  cases un with
  | none => simp [userStep, Configuration.appendWarningMessage]
  | some n => simp [userStep, hin, Configuration.appendWarningMessage]

/-! ### The registry invariant of decoded configurations -/

theorem usersWF_of_users_eq {c c' : Configuration} (h : c'.users = c.users)
    (hw : usersWF c) : usersWF c' := by
  unfold usersWF
  rw [h]
  exact hw

theorem usersWF_nil {c : Configuration} (h : c.users = []) : usersWF c := by
  unfold usersWF
  rw [h]
  exact ⟨by simp, by simp⟩

theorem usersWF_addUser {c : Configuration} (h : usersWF c) {name mask cl : String}
    (hm : mask ∉ invalidUserMasks) (hc : cl ∈ validUserClasses) :
    usersWF (c.addUser ⟨name, mask, cl⟩) := by
  constructor
  · intro p hp
    rcases mem_dictSet c.users name ⟨name, mask, cl⟩ p hp with h1 | h2
    · exact h.1 p h1
    · subst h2
      exact ⟨rfl, hm, hc⟩
  · exact nodup_keys_dictSet c.users name ⟨name, mask, cl⟩ h.2

theorem usersWF_userStep {c : Configuration} (h : usersWF c) (u : UserEntry) :
    usersWF (userStep c u) := by
  obtain ⟨un, um, uc⟩ := u
  cases un with
  | none => exact usersWF_of_users_eq rfl h
  | some name =>
    cases um with
    | none => exact usersWF_of_users_eq rfl h
    | some mask =>
      by_cases hmask : mask ∈ invalidUserMasks
      · simp only [userStep, if_pos hmask]
        exact usersWF_of_users_eq rfl h
      · cases uc with
        | none =>
          simp only [userStep, if_neg hmask]
          exact usersWF_addUser h hmask (by decide)
        | some cl =>
          by_cases hcl : cl ∈ validUserClasses
          · simp only [userStep, if_neg hmask, if_pos hcl]
            exact usersWF_addUser h hmask hcl
          · simp only [userStep, if_neg hmask, if_neg hcl]
            exact usersWF_addUser (usersWF_of_users_eq rfl h) hmask (by decide)

theorem usersWF_foldl_userStep (us : List UserEntry) : ∀ c, usersWF c →
    usersWF (us.foldl userStep c) := by
  induction us with
  | nil => intro c h; exact h
  | cons u rest ih => intro c h; exact ih _ (usersWF_userStep h u)

theorem decode_usersWF (d : Doc) : usersWF (ConfigurationDecoder.decode d) := by
  rw [ConfigurationDecoder.decode]
  split
  · split
    · rw [decodeBody]
      split
      · split
        · apply usersWF_of_users_eq (foldl_channelStep_users _ _)
          apply usersWF_foldl_userStep
          apply usersWF_nil
          simp only [foldl_serverStep_users, botCheck_users, sanityCheck_users]
        · exact usersWF_nil (by simp only [botCheck_users, sanityCheck_users])
      · exact usersWF_nil (by simp only [botCheck_users, sanityCheck_users])
    · exact usersWF_nil (sanityCheck_users d)
  · exact usersWF_nil (sanityCheck_users d)

/-! ### The channel invariant of decoded configurations -/

theorem channelsWF_of_eq {c c' : Configuration} (hu : c'.users = c.users)
    (hch : c'.channels = c.channels) (h : channelsWF c) : channelsWF c' := by
  unfold channelsWF
  rw [hu, hch]
  exact h

theorem channelsWF_nil {c : Configuration} (h : c.channels = []) : channelsWF c := by
  unfold channelsWF
  rw [h]
  simp

theorem mem_insertOp {l : List User} {u v : User} (h : v ∈ insertOp l u) :
    v ∈ l ∨ v = u := by
  rw [insertOp] at h
  split at h
  · exact Or.inl h
  · rcases List.mem_append.mp h with h1 | h2
    · exact Or.inl h1
    · exact Or.inr (by simpa using h2)

theorem insertOp_nodup {l : List User} (h : l.Nodup) (u : User) :
    (insertOp l u).Nodup := by
  rw [insertOp]
  split
  · exact h
  · next hnot =>
    rw [List.nodup_append]
    exact ⟨h, List.nodup_singleton u, by simpa using hnot⟩

theorem foldl_opStep_inv (reg : List (String × User))
    (hreg : ∀ p ∈ reg, p.1 = p.2.name) (ops : List String) :
    ∀ (c : Configuration) (l : List User), c.users = reg →
      ((ops.foldl opStep (c, l)).1.users = reg ∧
      (∀ u ∈ (ops.foldl opStep (c, l)).2, u ∈ l ∨ (u.name, u) ∈ reg) ∧
      (l.Nodup → (ops.foldl opStep (c, l)).2.Nodup)) := by
  induction ops with
  | nil => intro c l hc; exact ⟨hc, fun u hu => Or.inl hu, fun h => h⟩
  | cons o rest ih =>
    intro c l hc
    rw [List.foldl_cons]
    cases hfind : c.findUser o with
    | none =>
      have hstep : opStep (c, l) o =
          (c.appendWarningMessage ("Unknown operator '" ++ o ++ "'"), l) := by
        rw [opStep.eq_def]
        simp [hfind]
      rw [hstep]
      exact ih _ _ hc
    | some u =>
      have hstep : opStep (c, l) o = (c, insertOp l u) := by
        rw [opStep.eq_def]
        simp [hfind]
      rw [hstep]
      have hmem : (o, u) ∈ reg := hc ▸ dictGet_mem hfind
      have hname : o = u.name := hreg _ hmem
      obtain ⟨h1, h2, h3⟩ := ih c (insertOp l u) hc
      refine ⟨h1, fun v hv => ?_, fun hnd => h3 (insertOp_nodup hnd u)⟩
      rcases h2 v hv with hin | hmem2
      · rcases mem_insertOp hin with hl | hequ
        · exact Or.inl hl
        · subst hequ
          exact Or.inr (hname ▸ hmem)
      · exact Or.inr hmem2

theorem opStep_channels (acc : Configuration × List User) (opName : String) :
    ((opStep acc opName).1).channels = acc.1.channels := by
  rw [opStep.eq_def]
  split <;> rfl

theorem foldl_opStep_channels (ops : List String) : ∀ (acc : Configuration × List User),
    ((ops.foldl opStep acc).1).channels = acc.1.channels := by
  induction ops with
  | nil => intro acc; rfl
  | cons o rest ih => intro acc; rw [List.foldl_cons, ih, opStep_channels]

theorem channelsWF_channelStep {c : Configuration}
    (hu : ∀ p ∈ c.users, p.1 = p.2.name) (hc : channelsWF c) (ch : ChannelEntry) :
    channelsWF (channelStep c ch) := by
  obtain ⟨cn, cops⟩ := ch
  cases cn with
  | none => exact channelsWF_of_eq rfl rfl hc
  | some name =>
    obtain ⟨h1, h2, h3⟩ := foldl_opStep_inv c.users hu (cops.getD []) c [] rfl
    unfold channelsWF
    intro ch2 hch2
    rw [channelStep_users]
    have hchans : (channelStep c ⟨some name, cops⟩).channels =
        c.channels ++ [⟨name, ((cops.getD []).foldl opStep (c, [])).2⟩] := by
      simp only [channelStep, Configuration.addChannel]
      rw [foldl_opStep_channels]
    rw [hchans] at hch2
    rcases List.mem_append.mp hch2 with hold | hnew
    · exact hc ch2 hold
    · have heq : ch2 = ⟨name, ((cops.getD []).foldl opStep (c, [])).2⟩ := by
        simpa using hnew
      subst heq
      refine ⟨fun u hu2 => ?_, h3 List.nodup_nil⟩
      rcases h2 u hu2 with habs | hmem
      · simp at habs
      · exact hmem

theorem channelsWF_foldl (chs : List ChannelEntry) : ∀ c,
    (∀ p ∈ c.users, p.1 = p.2.name) → channelsWF c →
      channelsWF (chs.foldl channelStep c) := by
  induction chs with
  | nil => intro c _ h; exact h
  | cons ch rest ih =>
    intro c hu hc
    rw [List.foldl_cons]
    refine ih _ ?_ (channelsWF_channelStep hu hc ch)
    intro p hp
    rw [channelStep_users] at hp
    exact hu p hp

theorem decode_channelsWF (d : Doc) : channelsWF (ConfigurationDecoder.decode d) := by
  rw [ConfigurationDecoder.decode]
  split
  · split
    · rw [decodeBody]
      split
      · split
        · refine channelsWF_foldl _ _ ?_ ?_
          · intro p hp
            refine ((usersWF_foldl_userStep _ _ (usersWF_nil ?_)).1 p hp).1
            simp only [foldl_serverStep_users, botCheck_users, sanityCheck_users]
          · refine channelsWF_nil ?_
            simp only [foldl_userStep_channels, foldl_serverStep_channels,
              botCheck_channels, sanityCheck_channels]
        · exact channelsWF_nil
            (by simp only [botCheck_channels, sanityCheck_channels])
      · exact channelsWF_nil
          (by simp only [botCheck_channels, sanityCheck_channels])
    · exact channelsWF_nil (sanityCheck_channels d)
  · exact channelsWF_nil (sanityCheck_channels d)

/-- Claim C4, amended: no decoded configuration ever registers a user
carrying a universally matching mask (for any input document, including
those rejected early); and for every document that reaches the user
loop — all four sections present and the three `bot` fields present — a
user entry with such a mask draws its warning (the insecure-mask
warning, or the lack-of-name warning when the entry has no name). -/
theorem insecure_mask_never_registered :
    (∀ (d : Doc) p, p ∈ (ConfigurationDecoder.decode d).users →
      p.2.mask ∉ invalidUserMasks) ∧
    (∀ (d : Doc) bot servers users channels (u : UserEntry) (m : String),
      d.bot = some bot → d.servers = some servers → d.users = some users →
      d.channels = some channels →
      bot.nickname.isSome = true → bot.username.isSome = true →
      bot.realname.isSome = true →
      u ∈ users → u.mask = some m → m ∈ invalidUserMasks →
      (match u.name with
       | some n => "Insecure mask for user '" ++ n ++ "'"
       | none => "Ignored user-entry due to lack of name.") ∈
        (ConfigurationDecoder.decode d).warningMessages) := by
  constructor
  · intro d p hp
    exact ((decode_usersWF d).1 p hp).2.1
  · intro d bot servers users channels u m hb hs hu hc hn hun hr humem hmask hin
    obtain ⟨db, ds, du, dc⟩ := d
    dsimp only at hb hs hu hc
    subst hb; subst hs; subst hu; subst hc
    obtain ⟨bn, bu, br⟩ := bot
    dsimp only at hn hun hr
    obtain ⟨nick, rfl⟩ := Option.isSome_iff_exists.mp hn
    obtain ⟨uname, rfl⟩ := Option.isSome_iff_exists.mp hun
    obtain ⟨rname, rfl⟩ := Option.isSome_iff_exists.mp hr
    have hdec : ConfigurationDecoder.decode
        ⟨some ⟨some nick, some uname, some rname⟩,
          some servers, some users, some channels⟩ =
        channels.foldl channelStep (users.foldl userStep
          (servers.foldl serverStep
            { sanityCheck ⟨some ⟨some nick, some uname, some rname⟩,
                some servers, some users, some channels⟩ with
              nickname := nick, username := uname, realname := rname })) := rfl
    rw [hdec]
    refine mem_warn_foldl channelStep channelStep_warnExt channels _ _ ?_
    refine mem_warn_foldl_elem userStep userStep_warnExt users u humem _ ?_ _
    intro c2
    exact userStep_insecure_warning c2 u m hmask hin

/-! ### Decoding an encoded configuration -/

theorem foldl_serverStep_encode (ss : List Server) : ∀ c : Configuration,
    (ss.map fun s => ServerEntry.mk (some s.hostname) (some s.port) (some s.ssl)).foldl
      serverStep c = { c with servers := c.servers ++ ss } := by
  induction ss with
  | nil => intro c; simp
  | cons s rest ih =>
    intro c
    rw [List.map_cons, List.foldl_cons]
    have hstep : serverStep c ⟨some s.hostname, some s.port, some s.ssl⟩ =
        { c with servers := c.servers ++ [s] } := rfl
    rw [hstep, ih]
    simp

theorem foldl_userStep_encode : ∀ us : List User,
    (∀ u ∈ us, u.mask ∉ invalidUserMasks ∧ u.userClass ∈ validUserClasses) →
    ∀ c : Configuration, (c.users.map Prod.fst ++ us.map User.name).Nodup →
      (us.map fun u => UserEntry.mk (some u.name) (some u.mask) (some u.userClass)).foldl
        userStep c = { c with users := c.users ++ us.map (fun u => (u.name, u)) } := by
  intro us
  induction us with
  | nil => intro _ c _; simp
  | cons u rest ih =>
    intro hwf c hnd
    rw [List.map_cons, List.foldl_cons]
    have hu := hwf u (by simp)
    have hnotmem : u.name ∉ c.users.map Prod.fst := by
      intro hmem
      rcases List.nodup_append.mp hnd with ⟨_, _, hdisj⟩
      exact hdisj hmem (by simp)
    have hstep : userStep c ⟨some u.name, some u.mask, some u.userClass⟩ =
        { c with users := c.users ++ [(u.name, u)] } := by
      simp only [userStep, if_neg hu.1, if_pos hu.2]
      show c.addUser u = _
      simp only [Configuration.addUser]
      rw [dictSet_append u.name u c.users hnotmem]
    rw [hstep, ih (fun v hv => hwf v (by simp [hv])) _ (by simpa using hnd)]
    simp

theorem foldl_opStep_encode (reg : List (String × User))
    (hnd : (reg.map Prod.fst).Nodup) : ∀ ops : List User,
    (∀ u ∈ ops, (u.name, u) ∈ reg) →
    ∀ (c : Configuration) (l : List User), c.users = reg → (l ++ ops).Nodup →
      (ops.map User.name).foldl opStep (c, l) = (c, l ++ ops) := by
  intro ops
  induction ops with
  | nil => intro _ c l _ _; simp
  | cons u rest ih =>
    intro hops c l hc hnodup
    rw [List.map_cons, List.foldl_cons]
    have hfind : c.findUser u.name = some u := by
      show dictGet c.users u.name = some u
      rw [hc]
      exact mem_dictGet hnd (hops u (by simp))
    have hnotin : u ∉ l := by
      intro hmem
      rcases List.nodup_append.mp hnodup with ⟨_, _, hdisj⟩
      exact hdisj hmem (by simp)
    have hstep : opStep (c, l) u.name = (c, l ++ [u]) := by
      rw [opStep.eq_def]
      simp [hfind, insertOp, hnotin]
    rw [hstep, ih (fun v hv => hops v (by simp [hv])) c (l ++ [u]) hc
      (by simpa using hnodup)]
    simp

theorem foldl_channelStep_encode (reg : List (String × User))
    (hnd : (reg.map Prod.fst).Nodup) : ∀ chs : List Channel,
    (∀ ch ∈ chs, (∀ u ∈ ch.operators, (u.name, u) ∈ reg) ∧ ch.operators.Nodup) →
    ∀ c : Configuration, c.users = reg →
      (chs.map fun ch =>
        ChannelEntry.mk (some ch.name) (some (ch.operators.map User.name))).foldl
        channelStep c = { c with channels := c.channels ++ chs } := by
  intro chs
  induction chs with
  | nil => intro _ c _; simp
  | cons ch rest ih =>
    intro hchs c hc
    rw [List.map_cons, List.foldl_cons]
    have hch := hchs ch (by simp)
    have hfold := foldl_opStep_encode reg hnd ch.operators hch.1 c [] hc
      (by simpa using hch.2)
    have hstep : channelStep c ⟨some ch.name, some (ch.operators.map User.name)⟩ =
        { c with channels := c.channels ++ [ch] } := by
      simp only [channelStep, Option.getD_some]
      rw [hfold]
      show c.addChannel ch = _
      rfl
    rw [hstep]
    have hrest := ih (fun v hv => hchs v (by simp [hv]))
      { c with channels := c.channels ++ [ch] } hc
    rw [hrest]
    simp

/-- Decoding the encoded form of a configuration satisfying the two
decoder invariants reproduces its registry, server list and channel
list exactly. -/
theorem decode_encode_of_wf (c : Configuration) (hu : usersWF c) (hch : channelsWF c) :
    (ConfigurationDecoder.decode (ConfigurationEncoder.encode c)).users = c.users ∧
    (ConfigurationDecoder.decode (ConfigurationEncoder.encode c)).servers = c.servers ∧
    (ConfigurationDecoder.decode (ConfigurationEncoder.encode c)).channels = c.channels := by
  obtain ⟨hu1, hu2⟩ := hu
  have hkeys : c.getUsers.map User.name = c.users.map Prod.fst := by
    rw [Configuration.getUsers, List.map_map]
    refine List.map_congr_left ?_
    intro p hp
    exact ((hu1 p hp).1).symm
  have hpairs : c.getUsers.map (fun u => (u.name, u)) = c.users := by
    rw [Configuration.getUsers, List.map_map]
    have hcongr : c.users.map ((fun u => (u.name, u)) ∘ fun p => p.2) =
        c.users.map id := by
      refine List.map_congr_left ?_
      intro p hp
      have h := (hu1 p hp).1
      simp [Function.comp, ← h]
    rw [hcongr, List.map_id]
  have hwfvals : ∀ u ∈ c.getUsers, u.mask ∉ invalidUserMasks ∧
      u.userClass ∈ validUserClasses := by
    intro u hu3
    rw [Configuration.getUsers] at hu3
    obtain ⟨p, hp, rfl⟩ := List.mem_map.mp hu3
    exact ⟨(hu1 p hp).2.1, (hu1 p hp).2.2⟩
  have hdec : ConfigurationDecoder.decode (ConfigurationEncoder.encode c) =
      (c.channels.map fun ch =>
        ChannelEntry.mk (some ch.name) (some (ch.operators.map User.name))).foldl
        channelStep
        ((c.getUsers.map fun u =>
          UserEntry.mk (some u.name) (some u.mask) (some u.userClass)).foldl userStep
          ((c.servers.map fun s =>
            ServerEntry.mk (some s.hostname) (some s.port) (some s.ssl)).foldl serverStep
            { Configuration.init with
              nickname := c.nickname
              username := c.username
              realname := c.realname })) := rfl
  have h6 := foldl_serverStep_encode c.servers
    { Configuration.init with
      nickname := c.nickname
      username := c.username
      realname := c.realname }
  have h7 := foldl_userStep_encode c.getUsers hwfvals
    { Configuration.init with
      nickname := c.nickname
      username := c.username
      realname := c.realname
      servers := Configuration.init.servers ++ c.servers }
    (by simpa [Configuration.init, hkeys] using hu2)
  have h8 := foldl_channelStep_encode c.users hu2 c.channels hch
    { Configuration.init with
      nickname := c.nickname
      username := c.username
      realname := c.realname
      servers := Configuration.init.servers ++ c.servers
      users := Configuration.init.users ++ c.getUsers.map (fun u => (u.name, u)) }
    (by simpa [Configuration.init] using hpairs)
  rw [hdec, h6, h7, h8]
  refine ⟨?_, ?_, ?_⟩ <;> simp [Configuration.init, hpairs]

/-- Claim C7: for a configuration produced by `decode` on a fully
valid document, decoding `encode` of it yields set-equal users, servers
and channels (the lists are reproduced exactly, element for element,
operator sets included). -/
theorem decode_encode_roundtrip (d : Doc)
    (h : (ConfigurationDecoder.decode d).valid = true) :
    (∀ p, p ∈ (ConfigurationDecoder.decode (ConfigurationEncoder.encode
        (ConfigurationDecoder.decode d))).users ↔
      p ∈ (ConfigurationDecoder.decode d).users) ∧
    (∀ s, s ∈ (ConfigurationDecoder.decode (ConfigurationEncoder.encode
        (ConfigurationDecoder.decode d))).servers ↔
      s ∈ (ConfigurationDecoder.decode d).servers) ∧
    (∀ ch, ch ∈ (ConfigurationDecoder.decode (ConfigurationEncoder.encode
        (ConfigurationDecoder.decode d))).channels ↔
      ch ∈ (ConfigurationDecoder.decode d).channels) := by
  obtain ⟨h1, h2, h3⟩ := decode_encode_of_wf (ConfigurationDecoder.decode d)
    (decode_usersWF d) (decode_channelsWF d)
  exact ⟨fun p => by rw [h1], fun s => by rw [h2], fun ch => by rw [h3]⟩

/-- Witness for C7 at a concrete input: `docFull` decodes validly, and
the round trip preserves membership of its one registry entry. -/
theorem decode_encode_roundtrip_witness :
    (ConfigurationDecoder.decode docFull).valid = true ∧
    (("alice", (⟨"alice", "alice!*@trusted.example", "admin"⟩ : User)) ∈
        (ConfigurationDecoder.decode (ConfigurationEncoder.encode
          (ConfigurationDecoder.decode docFull))).users ↔
      ("alice", (⟨"alice", "alice!*@trusted.example", "admin"⟩ : User)) ∈
        (ConfigurationDecoder.decode docFull).users) :=
  ⟨by decide, (decode_encode_roundtrip docFull (by decide)).1
    ("alice", ⟨"alice", "alice!*@trusted.example", "admin"⟩)⟩

/-- Witness for C4's amended claim at concrete inputs: in a fully valid
document, the `alice` entry with mask `*` draws the insecure-mask
warning; and a registered user of a valid document never carries a
universally matching mask. -/
theorem insecure_mask_never_registered_witness :
    ("Insecure mask for user 'alice'" ∈
      (ConfigurationDecoder.decode docInsecureFull).warningMessages) ∧
    (("alice", (⟨"alice", "alice!*@trusted.example", "admin"⟩ : User)).2.mask ∉
      invalidUserMasks) :=
  ⟨insecure_mask_never_registered.2 docInsecureFull
      ⟨some "mybot", some "bot", some "The Bot"⟩ [] [⟨some "alice", some "*", none⟩] []
      ⟨some "alice", some "*", none⟩ "*" rfl rfl rfl rfl rfl rfl rfl (by decide) rfl
      (by decide),
   insecure_mask_never_registered.1 docFull
     ("alice", ⟨"alice", "alice!*@trusted.example", "admin"⟩) (by decide)⟩

end IrcBot
